import Mathlib

/-!
Verification of `release_automation.py` (MacSSH release automation tool).

The Python source is shallowly embedded below. File contents and other
text are modelled as `String` or `List Char`; Python integers as `Int`
or `Nat`; a call to `sys.exit(1)` or an uncaught exception is modelled
as an `Except`-style error value. Python builtins used by the script
(`str.split`, `int`, `str`, `str.strip`, `str.lower`, truthiness of
strings and lists) are modelled by small Lean functions, each with a
doc comment stating the modelled subset.
-/

namespace MacSSH

/-- Decimal digit test for ASCII characters, as used by the models of the
Python builtins `int` and `str`. -/
def isDigitChar (c : Char) : Bool := '0' ≤ c && c ≤ '9'

/-- Value of a list of ASCII decimal digits, most significant first. -/
def digitsToNat (cs : List Char) : Nat :=
  cs.foldl (fun a c => 10 * a + (c.toNat - 48)) 0

/-- Model of the Python builtin `int(s)` on a string: an optional single
sign followed by a nonempty run of ASCII decimal digits yields the
denoted integer, anything else raises `ValueError` (here: `none`).
(Surrounding whitespace, underscores and non-ASCII digits, which CPython
also accepts, are outside the modelled subset; the tool only feeds
version and build fields to `int`.) -/
def pyIntParse (s : String) : Option Int :=
  let cs := s.toList
  if cs ≠ [] ∧ cs.all isDigitChar then some (digitsToNat cs : Int)
  else
    match cs with
    | '-' :: rest =>
        if rest ≠ [] ∧ rest.all isDigitChar then some (-(digitsToNat rest : Int)) else none
    | '+' :: rest =>
        if rest ≠ [] ∧ rest.all isDigitChar then some ((digitsToNat rest : Int)) else none
    | _ => none

/-- Fuel-driven worker for `natDecDigits`; the fuel only bounds the
recursion depth and is irrelevant once it is at least the argument. -/
def natDecAux : Nat → Nat → List Char
  | 0, n => [Nat.digitChar n]
  | fuel + 1, n =>
      if n < 10 then [Nat.digitChar n]
      else natDecAux fuel (n / 10) ++ [Nat.digitChar (n % 10)]

/-- Decimal digit characters of a natural number, most significant first.
Model of the digit sequence produced by the Python builtin `str` on a
non-negative integer. -/
def natDecDigits (n : Nat) : List Char := natDecAux n n

/-- Model of the Python builtin `str` on a non-negative integer. -/
def pyStrNat (n : Nat) : String := String.mk (natDecDigits n)

/-- Model of the Python builtin `str` on an arbitrary integer. -/
def pyStrInt (i : Int) : String :=
  if i < 0 then "-" ++ pyStrNat i.natAbs else pyStrNat i.toNat

/-- Model of the Python method `str.split` with the single-character
separator `'.'` (as in `self.current_version.split('.')`): splits into
the (possibly empty) runs between separator occurrences. -/
def splitDot (cs : List Char) : List (List Char) :=
  match cs with
  | [] => [[]]
  | c :: rest =>
      if c = '.' then [] :: splitDot rest
      else
        match splitDot rest with
        | h :: t => (c :: h) :: t
        | [] => [[c]]

/-- Error taxonomy of `calculate_new_versions`: `formatError` models the
explicit `sys.exit(1)` on a malformed component count (the
`ConfigFormatError` of the specification); `valueError` models an
uncaught `ValueError` from `int(...)`, which the top-level handler of
`run_full_release` also turns into process exit 1. -/
inductive CalcError where
  | formatError
  | valueError
deriving DecidableEq

/-- Embedding of `MacSSHReleaseAutomation.calculate_new_versions`
(release_automation.py lines 90-105): split the current version on dots,
exit fatally unless there are exactly three components, increment the
integer value of the third component, rebuild the version string with
major and minor components untouched, and increment the integer value of
the current build string. -/
def calculate_new_versions (current_version current_build : String) :
    Except CalcError (String × String) :=
  let parts := splitDot current_version.toList
  if parts.length ≠ 3 then .error .formatError
  else
    match parts with
    | [major, minor, patch] =>
        match pyIntParse (String.mk patch), pyIntParse current_build with
        | some p, some b =>
            .ok (String.mk major ++ "." ++ String.mk minor ++ "." ++ pyStrInt (p + 1),
                 pyStrInt (b + 1))
        | _, _ => .error .valueError
    | _ => .error .formatError

/-- A string is numeric when it is a nonempty run of decimal digits. -/
def isNumericString (s : String) : Bool :=
  s.toList ≠ [] && s.toList.all isDigitChar

/-- A string has no leading zero when it is empty, is exactly "0", or
starts with a nonzero character. -/
def noLeadingZero (s : String) : Prop :=
  ∀ c cs, s.toList = c :: cs → (c = '0' → cs = [])

lemma toList_mk (cs : List Char) : (String.mk cs).toList = cs := rfl

lemma pyIntParse_digits (cs : List Char) (h1 : cs ≠ []) (h2 : cs.all isDigitChar = true) :
    pyIntParse (String.mk cs) = some (digitsToNat cs : Int) := by
  unfold pyIntParse
  rw [toList_mk, if_pos ⟨h1, h2⟩]

lemma natDecAux_irrel (f1 : Nat) : ∀ f2 n, n ≤ f1 → n ≤ f2 → natDecAux f1 n = natDecAux f2 n := by
  induction f1 with
  | zero =>
      intro f2 n h1 _
      have hn : n = 0 := Nat.le_zero.mp h1
      subst hn
      cases f2 with
      | zero => rfl
      | succ f2 => simp [natDecAux]
  | succ f1 ih =>
      intro f2 n h1 h2
      by_cases h10 : n < 10
      · cases f2 with
        | zero =>
            have hn : n = 0 := Nat.le_zero.mp h2
            subst hn
            simp [natDecAux]
        | succ f2 => simp [natDecAux, h10]
      · have hf2 : ∃ f2p, f2 = f2p + 1 := ⟨f2 - 1, by omega⟩
        obtain ⟨f2p, rfl⟩ := hf2
        show natDecAux (f1 + 1) n = natDecAux (f2p + 1) n
        simp only [natDecAux, if_neg h10]
        have hlt : n / 10 < n := Nat.div_lt_self (by omega) (by omega)
        rw [ih f2p (n / 10) (by omega) (by omega)]

/-- Unfolding equation for `natDecDigits`. -/
lemma natDecDigits_unfold (n : Nat) :
    natDecDigits n =
      if n < 10 then [Nat.digitChar n]
      else natDecDigits (n / 10) ++ [Nat.digitChar (n % 10)] := by
  unfold natDecDigits
  cases hn : n with
  | zero => simp [natDecAux]
  | succ m =>
      show natDecAux (m + 1) (m + 1) = _
      by_cases h10 : m + 1 < 10
      · simp [natDecAux, h10]
      · simp only [natDecAux, if_neg h10]
        have hlt : (m + 1) / 10 < m + 1 := Nat.div_lt_self (by omega) (by omega)
        rw [natDecAux_irrel m ((m + 1) / 10) ((m + 1) / 10) (by omega) (by omega)]

lemma natDecDigits_ne_nil (n : Nat) : natDecDigits n ≠ [] := by
  rw [natDecDigits_unfold]
  split <;> simp

lemma digitChar_toNat (m : Nat) (h : m < 10) : (Nat.digitChar m).toNat - 48 = m := by
  interval_cases m <;> decide

lemma digitChar_isDigit (m : Nat) (h : m < 10) : isDigitChar (Nat.digitChar m) = true := by
  interval_cases m <;> decide

lemma digitsToNat_append_singleton (a : List Char) (c : Char) :
    digitsToNat (a ++ [c]) = 10 * digitsToNat a + (c.toNat - 48) := by
  unfold digitsToNat
  rw [List.foldl_append]
  rfl

lemma digitsToNat_natDecDigits (n : Nat) : digitsToNat (natDecDigits n) = n := by
  induction n using Nat.strong_induction_on with
  | _ n ih =>
    rw [natDecDigits_unfold]
    split_ifs with h
    · show digitsToNat [Nat.digitChar n] = n
      unfold digitsToNat
      simp only [List.foldl_cons, List.foldl_nil]
      rw [Nat.mul_zero, Nat.zero_add, digitChar_toNat n h]
    · rw [digitsToNat_append_singleton,
          ih (n / 10) (Nat.div_lt_self (by omega) (by omega)),
          digitChar_toNat (n % 10) (Nat.mod_lt n (by omega))]
      omega

lemma natDecDigits_all_digits (n : Nat) : (natDecDigits n).all isDigitChar = true := by
  induction n using Nat.strong_induction_on with
  | _ n ih =>
    rw [natDecDigits_unfold]
    split_ifs with h
    · simp [digitChar_isDigit n h]
    · rw [List.all_append]
      simp [ih (n / 10) (Nat.div_lt_self (by omega) (by omega)),
            digitChar_isDigit (n % 10) (Nat.mod_lt n (by omega))]

lemma natDecDigits_head_ne_zero (n : Nat) (hn : 0 < n) :
    ∀ c cs, natDecDigits n = c :: cs → c ≠ '0' := by
  induction n using Nat.strong_induction_on with
  | _ n ih =>
    rw [natDecDigits_unfold]
    split_ifs with h
    · intro c cs heq
      injection heq with h1 h2
      subst h1
      interval_cases n <;> decide
    · intro c cs heq
      cases hd : natDecDigits (n / 10) with
      | nil => exact absurd hd (natDecDigits_ne_nil (n / 10))
      | cons c' cs' =>
          rw [hd] at heq
          injection heq with h1 h2
          subst h1
          exact ih (n / 10) (Nat.div_lt_self (by omega) (by omega))
            (by omega) c' cs' hd

lemma noLeadingZero_pyStrNat (n : Nat) : noLeadingZero (pyStrNat n) := by
  intro c cs h
  intro hc
  by_cases hn : n = 0
  · subst hn
    have h0 : (pyStrNat 0).toList = ['0'] := by decide
    rw [h0] at h
    injection h with h1 h2
    exact h2.symm
  · exfalso
    have hlist : natDecDigits n = c :: cs := by
      have : (pyStrNat n).toList = natDecDigits n := by
        unfold pyStrNat
        rw [toList_mk]
      rw [this] at h
      exact h
    exact natDecDigits_head_ne_zero n (by omega) c cs hlist hc

lemma pyStrInt_coe (n : Nat) : pyStrInt (n : Int) = pyStrNat n := by
  unfold pyStrInt
  simp

lemma mk_toList (s : String) : String.mk s.toList = s := rfl

lemma pyIntParse_of_numeric (s : String) (h : isNumericString s = true) :
    pyIntParse s = some (digitsToNat s.toList : Int) := by
  unfold isNumericString at h
  simp only [Bool.and_eq_true, decide_eq_true_eq] at h
  have := pyIntParse_digits s.toList h.1 h.2
  rw [mk_toList] at this
  exact this

lemma calc_eq_ok (v build : String) (a b c : List Char) (p q : Int)
    (h1 : splitDot v.toList = [a, b, c])
    (h2 : pyIntParse (String.mk c) = some p)
    (h3 : pyIntParse build = some q) :
    calculate_new_versions v build =
      .ok (String.mk a ++ "." ++ String.mk b ++ "." ++ pyStrInt (p + 1),
           pyStrInt (q + 1)) := by
  have h1' : splitDot v.data = [a, b, c] := h1
  simp [calculate_new_versions, h1', h2, h3]

end MacSSH

namespace MacSSH

/-- Claim C1: for every current version string that splits on dots into
exactly three components whose third parses as an integer,
`calculate_new_versions` produces `major.minor.(patch+1)` with the major
and minor components unchanged; for every input string that does not
split into exactly three dot-separated components it fails with the
fatal format error (`sys.exit(1)` in the source, a nonzero process
exit), producing no new version. -/
theorem claim_C1_version_calculator :
    (∀ (v build : String) (a b c : List Char) (p q : Int),
        splitDot v.toList = [a, b, c] →
        pyIntParse (String.mk c) = some p →
        pyIntParse build = some q →
        calculate_new_versions v build =
          .ok (String.mk a ++ "." ++ String.mk b ++ "." ++ pyStrInt (p + 1),
               pyStrInt (q + 1)))
    ∧ (∀ (v build : String), (splitDot v.toList).length ≠ 3 →
        calculate_new_versions v build = .error .formatError) := by
  constructor
  · intro v build a b c p q h1 h2 h3
    exact calc_eq_ok v build a b c p q h1 h2 h3
  · intro v build h
    have h' : (splitDot v.data).length ≠ 3 := h
    simp [calculate_new_versions, h']

/-- Witness for claim C1 at concrete inputs. -/
theorem claim_C1_version_calculator_witness :
    calculate_new_versions "2.1.4" "87" = .ok ("2.1.5", "88") ∧
    calculate_new_versions "2.1" "87" = .error .formatError := by
  constructor
  · exact (claim_C1_version_calculator.1 "2.1.4" "87" ['2'] ['1'] ['4'] 4 87
      (by decide) (by rfl) (by rfl)).trans (by rfl)
  · exact claim_C1_version_calculator.2 "2.1" "87" (by decide)

/-- Claim C7: for every build-number string that is a nonempty run of
decimal digits (leading zeros allowed), the calculator renders its value
plus one in decimal with no leading zeros (the version input is assumed
well formed so that the calculator reaches the build computation). -/
theorem claim_C7_build_increment :
    ∀ (v build : String) (a b c : List Char) (p : Int),
      splitDot v.toList = [a, b, c] →
      pyIntParse (String.mk c) = some p →
      isNumericString build = true →
      calculate_new_versions v build =
        .ok (String.mk a ++ "." ++ String.mk b ++ "." ++ pyStrInt (p + 1),
             pyStrNat (digitsToNat build.toList + 1)) ∧
      noLeadingZero (pyStrNat (digitsToNat build.toList + 1)) ∧
      digitsToNat (pyStrNat (digitsToNat build.toList + 1)).toList
        = digitsToNat build.toList + 1 ∧
      (pyStrNat (digitsToNat build.toList + 1)).toList.all isDigitChar = true := by
  intro v build a b c p h1 h2 h3
  have hb := pyIntParse_of_numeric build h3
  have hcast : ((digitsToNat build.toList : Int) + 1)
      = ((digitsToNat build.toList + 1 : Nat) : Int) := by push_cast; ring
  refine ⟨?_, noLeadingZero_pyStrNat _, ?_, ?_⟩
  · have he := calc_eq_ok v build a b c p _ h1 h2 hb
    rw [he, hcast, pyStrInt_coe]
  · show digitsToNat (pyStrNat _).toList = _
    unfold pyStrNat
    rw [toList_mk]
    exact digitsToNat_natDecDigits _
  · unfold pyStrNat
    rw [toList_mk]
    exact natDecDigits_all_digits _

/-- Witness for claim C7 at a concrete input with leading zeros. -/
theorem claim_C7_build_increment_witness :
    calculate_new_versions "1.2.3" "007" = .ok ("1.2.4", "8") ∧
    noLeadingZero (pyStrNat 8) := by
  have h := claim_C7_build_increment "1.2.3" "007" ['1'] ['2'] ['3'] 3
    (by decide) (by rfl) (by rfl)
  exact ⟨h.1.trans (by rfl), h.2.1⟩

/-- Claim C9 as stated is false: the calculator never validates the major
and minor components; `"a.b.3"` has two non-numeric components yet is
accepted and produces `"a.b.4"`. -/
theorem claim_C9_counterexample :
    calculate_new_versions "a.b.3" "1" = .ok ("a.b.4", "2") ∧
    isNumericString "a" = false ∧ isNumericString "b" = false :=
  ⟨by rfl, by rfl, by rfl⟩

/-- Claim C9 amended: only the component count and the numericity of the
patch (and build) components are validated; three-component versions
with non-numeric major or minor are accepted with those components
passed through unchanged, while a three-component version whose patch
does not parse as an integer is rejected fatally (an uncaught
`ValueError`, exit 1 via the top-level handler). -/
theorem claim_C9_amended_validation :
    (∀ (v build : String) (a b c : List Char) (p q : Int),
        splitDot v.toList = [a, b, c] →
        pyIntParse (String.mk c) = some p →
        pyIntParse build = some q →
        ∃ newv newb, calculate_new_versions v build = .ok (newv, newb) ∧
          newv = String.mk a ++ "." ++ String.mk b ++ "." ++ pyStrInt (p + 1))
    ∧ (∀ (v build : String) (a b c : List Char),
        splitDot v.toList = [a, b, c] →
        pyIntParse (String.mk c) = none →
        calculate_new_versions v build = .error .valueError) := by
  constructor
  · intro v build a b c p q h1 h2 h3
    exact ⟨_, _, calc_eq_ok v build a b c p q h1 h2 h3, rfl⟩
  · intro v build a b c h1 h2
    have h1' : splitDot v.data = [a, b, c] := h1
    simp [calculate_new_versions, h1', h2]

/-- Witness for the amended claim C9 at concrete inputs. -/
theorem claim_C9_amended_validation_witness :
    (∃ newv newb, calculate_new_versions "a.b.3" "9" = .ok (newv, newb) ∧
        newv = "a.b.4") ∧
    calculate_new_versions "1.2.x" "9" = .error .valueError := by
  constructor
  · obtain ⟨nv, nb, he, hv⟩ := claim_C9_amended_validation.1 "a.b.3" "9"
      ['a'] ['b'] ['3'] 3 9 (by decide) (by rfl) (by rfl)
    exact ⟨nv, nb, he, hv.trans (by rfl)⟩
  · exact claim_C9_amended_validation.2 "1.2.x" "9" ['1'] ['2'] ['x']
      (by decide) (by rfl)

/-!
File Patcher (`update_project_pbxproj`, release_automation.py lines
107-130). The source calls `re.sub` with a pattern built by f-string
interpolation of the CURRENT version into the assignment template, so
the version string is interpolated into a regular expression without
`re.escape`: every `'.'` of the version is the regex
match-any-character-except-newline wildcard. For the patterns this tool
builds (`MARKETING_VERSION = <ver>;`, `CURRENT_PROJECT_VERSION =
<build>;` with versions made of digits and dots), `'.'` is the only
regex metacharacter, so `re.sub` is modelled exactly by a scanner over
fixed-length patterns of literal characters and wildcards: scan left to
right, replace each non-overlapping match, resume after the match.
The replacement text contains no backslash escapes and is literal.
-/

/-- One pattern element of the modelled regex subset: a literal
character, or the `'.'` wildcard (any character except newline). -/
inductive PChar where
  | lit (c : Char)
  | dot

/-- Whether a pattern element matches one character. -/
def matchPC : PChar → Char → Bool
  | .lit c, d => c == d
  | .dot, d => d != '\n'

/-- Whether the fixed-length pattern matches a prefix of the text. -/
def matchAt : List PChar → List Char → Bool
  | [], _ => true
  | _ :: _, [] => false
  | p :: ps, c :: cs => matchPC p c && matchAt ps cs

/-- Compile pattern text: `'.'` becomes the wildcard (as in an
unescaped Python regex), every other character of the assignment
templates is literal. -/
def mkPC (c : Char) : PChar := if c = '.' then PChar.dot else PChar.lit c

/-- Compile a whole pattern text. -/
def mkPat (t : List Char) : List PChar := t.map mkPC

/-- Fuel-driven worker for `subF`; fuel bounds the scan length only. -/
def subFAux (pat : List PChar) (repl : List Char) : Nat → List Char → List Char
  | _, [] => []
  | 0, s => s
  | fuel + 1, c :: cs =>
      if matchAt pat (c :: cs) then
        repl ++ subFAux pat repl fuel (cs.drop (pat.length - 1))
      else c :: subFAux pat repl fuel cs

/-- Left-to-right, non-overlapping substitution of every match of a
fixed-length pattern: the model of `re.sub` for the patterns this tool
builds. -/
def subF (pat : List PChar) (repl : List Char) (s : List Char) : List Char :=
  subFAux pat repl s.length s

/-- Model of `re.sub(patText, repl, content)` for pattern texts whose
only metacharacter is `'.'`. -/
def re_sub (patText repl content : List Char) : List Char :=
  subF (mkPat patText) repl content

/-- The `MARKETING_VERSION` assignment text the source interpolates
(pattern when built from the old version, replacement when built from
the new one). -/
def mvAssignment (v : List Char) : List Char :=
  "MARKETING_VERSION = ".toList ++ v ++ [';']

/-- The `CURRENT_PROJECT_VERSION` assignment text the source
interpolates. -/
def cpvAssignment (b : List Char) : List Char :=
  "CURRENT_PROJECT_VERSION = ".toList ++ b ++ [';']

/-- Embedding of `MacSSHReleaseAutomation.update_project_pbxproj`
(lines 107-130): substitute the marketing-version assignment, then the
project-version assignment, over the whole file content; the rewritten
content is what is written back to the file. -/
def update_project_pbxproj
    (current_version new_version current_build new_build content : List Char) :
    List Char :=
  let content1 :=
    re_sub (mvAssignment current_version) (mvAssignment new_version) content
  re_sub (cpvAssignment current_build) (cpvAssignment new_build) content1

/-- The old value occurs verbatim somewhere in the text. -/
def occursIn (p s : List Char) : Prop := ∃ x y, s = x ++ p ++ y

/-- Executable occurrence scan, used to refute `occursIn` on concrete
inputs. -/
def containsSeg : List Char → List Char → Bool
  | p, [] => decide (p = [])
  | p, c :: cs => p.isPrefixOf (c :: cs) || containsSeg p cs

lemma isPrefixOf_self_append (p y : List Char) : p.isPrefixOf (p ++ y) = true := by
  induction p with
  | nil => simp
  | cons c cs ih => simp [List.isPrefixOf_cons₂, ih]

lemma containsSeg_nil_left (y : List Char) : containsSeg [] y = true := by
  induction y with
  | nil => rfl
  | cons c cs ih =>
      show (List.isPrefixOf [] (c :: cs) || containsSeg [] cs) = true
      rw [ih, List.isPrefixOf_nil_left, Bool.true_or]

lemma containsSeg_of_occurs (p x y : List Char) :
    containsSeg p (x ++ p ++ y) = true := by
  induction x with
  | nil =>
      cases p with
      | nil => exact containsSeg_nil_left _
      | cons c cs =>
          show (List.isPrefixOf (c :: cs) ((c :: cs) ++ y)
              || containsSeg (c :: cs) (cs ++ y)) = true
          rw [isPrefixOf_self_append, Bool.true_or]
  | cons c x ih =>
      show (List.isPrefixOf p (c :: (x ++ p ++ y))
          || containsSeg p (x ++ p ++ y)) = true
      rw [ih, Bool.or_true]

lemma subFAux_irrel (pat : List PChar) (repl : List Char) (f1 : Nat) :
    ∀ f2 s, s.length ≤ f1 → s.length ≤ f2 →
      subFAux pat repl f1 s = subFAux pat repl f2 s := by
  induction f1 with
  | zero =>
      intro f2 s h1 _
      have : s = [] := List.length_eq_zero.mp (Nat.le_zero.mp h1)
      subst this
      cases f2 <;> rfl
  | succ f1 ih =>
      intro f2 s h1 h2
      cases s with
      | nil => cases f2 <;> rfl
      | cons c cs =>
          have hf2 : ∃ f2p, f2 = f2p + 1 := ⟨f2 - 1, by simp at h2; omega⟩
          obtain ⟨f2p, rfl⟩ := hf2
          simp only [subFAux]
          have hlen : cs.length ≤ f1 := by simp at h1; omega
          have hlen2 : cs.length ≤ f2p := by simp at h2; omega
          by_cases hm : matchAt pat (c :: cs) = true
          · rw [if_pos hm, if_pos hm,
               ih f2p (cs.drop (pat.length - 1))
                 (by rw [List.length_drop]; omega)
                 (by rw [List.length_drop]; omega)]
          · rw [if_neg hm, if_neg hm, ih f2p cs hlen hlen2]

/-- Unfolding equation for `subF` on a nonempty text. -/
lemma subF_cons (pat : List PChar) (repl : List Char) (c : Char) (cs : List Char) :
    subF pat repl (c :: cs) =
      if matchAt pat (c :: cs) then
        repl ++ subF pat repl (cs.drop (pat.length - 1))
      else c :: subF pat repl cs := by
  show subFAux pat repl (cs.length + 1) (c :: cs) = _
  simp only [subFAux]
  by_cases hm : matchAt pat (c :: cs) = true
  · rw [if_pos hm, if_pos hm,
       subFAux_irrel pat repl cs.length (cs.drop (pat.length - 1)).length
         (cs.drop (pat.length - 1))
         (by rw [List.length_drop]; omega) (le_refl _)]
    rfl
  · rw [if_neg hm, if_neg hm]
    rfl

lemma matchAt_nil_of_ne (pat : List PChar) (hp : pat ≠ []) :
    matchAt pat [] = false := by
  cases pat with
  | nil => exact absurd rfl hp
  | cons p ps => rfl

/-- If the pattern matches at no position of the text, substitution is
the identity. -/
lemma subF_no_match (pat : List PChar) (repl s : List Char)
    (h : ∀ i < s.length, matchAt pat (s.drop i) = false) :
    subF pat repl s = s := by
  induction s with
  | nil => rfl
  | cons c cs ih =>
      rw [subF_cons]
      have h0 : matchAt pat (c :: cs) = false := by
        have := h 0 (by simp)
        simpa using this
      rw [if_neg (by simp [h0])]
      rw [ih (fun i hi => by
        have := h (i + 1) (by simp; omega)
        simpa [List.drop_succ_cons] using this)]

/-- Substitution on a text that starts with a match replaces that match
and continues after it. -/
lemma subF_match_head (pat : List PChar) (repl s : List Char) (hp : pat ≠ [])
    (hm : matchAt pat s = true) :
    subF pat repl s = repl ++ subF pat repl (s.drop pat.length) := by
  cases s with
  | nil => rw [matchAt_nil_of_ne pat hp] at hm; exact absurd hm (by simp)
  | cons c cs =>
      rw [subF_cons, if_pos hm]
      obtain ⟨k, hk⟩ : ∃ k, pat.length = k + 1 := by
        cases pat with
        | nil => exact absurd rfl hp
        | cons p ps => exact ⟨ps.length, rfl⟩
      rw [hk]
      simp [List.drop_succ_cons]

/-- A match-free prefix passes through substitution unchanged. -/
lemma subF_append_left (pat : List PChar) (repl : List Char) :
    ∀ (a rest : List Char),
      (∀ i < a.length, matchAt pat ((a ++ rest).drop i) = false) →
      subF pat repl (a ++ rest) = a ++ subF pat repl rest := by
  intro a
  induction a with
  | nil => intro rest _; rfl
  | cons x a ih =>
      intro rest h
      have h0 : matchAt pat (x :: (a ++ rest)) = false := by
        have := h 0 (by simp)
        simpa using this
      show subF pat repl (x :: (a ++ rest)) = _
      rw [subF_cons, if_neg (by simp [h0])]
      rw [ih rest (fun i hi => by
        have := h (i + 1) (by simp; omega)
        simpa [List.drop_succ_cons] using this)]
      rfl

/-- Compiled pattern text always matches its own literal text. -/
lemma matchAt_mkPat_self : ∀ (xs ys : List Char),
    matchAt (mkPat xs) (xs ++ ys) = true := by
  intro xs
  induction xs with
  | nil => intro ys; rfl
  | cons c cs ih =>
      intro ys
      show matchAt (mkPC c :: mkPat cs) (c :: (cs ++ ys)) = true
      have hpc : matchPC (mkPC c) c = true := by
        unfold mkPC
        by_cases hc : c = '.'
        · subst hc; decide
        · rw [if_neg hc]; simp [matchPC]
      simp [matchAt, hpc, ih ys]

lemma mkPat_length (t : List Char) : (mkPat t).length = t.length :=
  List.length_map _ _

lemma mkPat_ne_nil (t : List Char) (ht : t ≠ []) : mkPat t ≠ [] := by
  cases t with
  | nil => exact absurd rfl ht
  | cons c cs => simp [mkPat]

/-- A single literal occurrence of the pattern text, with no other match
anywhere, is rewritten to the replacement and nothing else changes. -/
lemma subF_replace_once (t repl a b : List Char) (ht : t ≠ [])
    (ha : ∀ i < a.length, matchAt (mkPat t) ((a ++ t ++ b).drop i) = false)
    (hb : ∀ i < b.length, matchAt (mkPat t) (b.drop i) = false) :
    subF (mkPat t) repl (a ++ t ++ b) = a ++ repl ++ b := by
  have hp := mkPat_ne_nil t ht
  have ha' : ∀ i < a.length, matchAt (mkPat t) ((a ++ (t ++ b)).drop i) = false := by
    intro i hi
    have := ha i hi
    simpa [List.append_assoc] using this
  rw [List.append_assoc, subF_append_left (mkPat t) repl a (t ++ b) ha',
     subF_match_head (mkPat t) repl (t ++ b) hp (matchAt_mkPat_self t b),
     mkPat_length, List.drop_left,
     subF_no_match (mkPat t) repl b hb,
     List.append_assoc]

/-- Two literal occurrences of the pattern text, with no other match
anywhere, are both rewritten in a single substitution pass. -/
lemma subF_replace_twice (t repl a b c : List Char) (ht : t ≠ [])
    (ha : ∀ i < a.length,
        matchAt (mkPat t) ((a ++ t ++ b ++ t ++ c).drop i) = false)
    (hb : ∀ i < b.length, matchAt (mkPat t) ((b ++ t ++ c).drop i) = false)
    (hc : ∀ i < c.length, matchAt (mkPat t) (c.drop i) = false) :
    subF (mkPat t) repl (a ++ t ++ b ++ t ++ c)
      = a ++ repl ++ b ++ repl ++ c := by
  have hp := mkPat_ne_nil t ht
  have ha' : ∀ i < a.length,
      matchAt (mkPat t) ((a ++ (t ++ (b ++ (t ++ c)))).drop i) = false := by
    intro i hi
    have := ha i hi
    simpa [List.append_assoc] using this
  have hb' : ∀ i < b.length,
      matchAt (mkPat t) ((b ++ (t ++ c)).drop i) = false := by
    intro i hi
    have := hb i hi
    simpa [List.append_assoc] using this
  have key : subF (mkPat t) repl (a ++ (t ++ (b ++ (t ++ c))))
      = a ++ (repl ++ (b ++ (repl ++ c))) := by
    rw [subF_append_left (mkPat t) repl a (t ++ (b ++ (t ++ c))) ha',
       subF_match_head (mkPat t) repl _ hp (matchAt_mkPat_self t (b ++ (t ++ c))),
       mkPat_length, List.drop_left,
       subF_append_left (mkPat t) repl b (t ++ c) hb',
       subF_match_head (mkPat t) repl _ hp (matchAt_mkPat_self t c),
       mkPat_length, List.drop_left,
       subF_no_match (mkPat t) repl c hc]
  have hgoal := key
  simp only [List.append_assoc]
  simpa [List.append_assoc] using hgoal

end MacSSH

namespace MacSSH

lemma mvAssignment_ne_nil (v : List Char) : mvAssignment v ≠ [] := by
  intro h
  unfold mvAssignment at h
  have h2 := (List.append_eq_nil.mp h).2
  exact absurd h2 (by simp)

/-- Claim C2 as stated is false: the substitution is not literal. The
old version is interpolated into the regex pattern unescaped, so its
dots match any character: with old value `2.1.4` absent verbatim from
`MARKETING_VERSION = 2a1b4;`, patching still rewrites the file. -/
theorem claim_C2_counterexample :
    update_project_pbxproj "2.1.4".toList "2.1.5".toList "87".toList "88".toList
        "MARKETING_VERSION = 2a1b4;".toList
      ≠ "MARKETING_VERSION = 2a1b4;".toList
    ∧ ¬ occursIn "2.1.4".toList "MARKETING_VERSION = 2a1b4;".toList := by
  constructor
  · decide
  · rintro ⟨x, y, h⟩
    have hc := containsSeg_of_occurs "2.1.4".toList x y
    rw [← h] at hc
    have hf : containsSeg "2.1.4".toList
        "MARKETING_VERSION = 2a1b4;".toList = false := by decide
    rw [hf] at hc
    exact Bool.false_ne_true hc

/-- Claim C2 amended: the File Patcher performs regex substitution with
the old value interpolated unescaped, so each dot of the old version is
a match-any-character wildcard. When the resulting pattern matches
nowhere in the file the content is byte-for-byte unchanged, and a
literal occurrence of the old assignment text, when it is the only
match, is rewritten to the new assignment text with the rest of the file
untouched; mere verbatim absence of the old value does not guarantee
the file is unchanged. -/
theorem claim_C2_amended_substitution :
    (∀ (oldv newv content : List Char),
        (∀ i < content.length,
            matchAt (mkPat (mvAssignment oldv)) (content.drop i) = false) →
        re_sub (mvAssignment oldv) (mvAssignment newv) content = content)
    ∧ (∀ (oldv newv a b : List Char),
        (∀ i < a.length,
            matchAt (mkPat (mvAssignment oldv))
              ((a ++ mvAssignment oldv ++ b).drop i) = false) →
        (∀ i < b.length,
            matchAt (mkPat (mvAssignment oldv)) (b.drop i) = false) →
        re_sub (mvAssignment oldv) (mvAssignment newv)
            (a ++ mvAssignment oldv ++ b)
          = a ++ mvAssignment newv ++ b) := by
  constructor
  · intro oldv newv content h
    exact subF_no_match _ _ _ h
  · intro oldv newv a b ha hb
    exact subF_replace_once (mvAssignment oldv) (mvAssignment newv) a b
      (mvAssignment_ne_nil oldv) ha hb

/-- Witness for the amended claim C2 at concrete inputs. -/
theorem claim_C2_amended_substitution_witness :
    re_sub (mvAssignment "2.1.4".toList) (mvAssignment "9.9.9".toList)
        "nothing here".toList = "nothing here".toList
    ∧ re_sub (mvAssignment "2.1.4".toList) (mvAssignment "9.9.9".toList)
        ("A ".toList ++ mvAssignment "2.1.4".toList ++ " B".toList)
      = "A ".toList ++ mvAssignment "9.9.9".toList ++ " B".toList := by
  constructor
  · exact claim_C2_amended_substitution.1 "2.1.4".toList "9.9.9".toList
      "nothing here".toList (by decide)
  · exact claim_C2_amended_substitution.2 "2.1.4".toList "9.9.9".toList
      "A ".toList " B".toList (by decide) (by decide)

/-- Claim C10: a single patch pass replaces every (non-overlapping)
occurrence of the old assignment pattern, not only the first: a file
with the assignment in two places has both rewritten. -/
theorem claim_C10_replaces_all_occurrences :
    ∀ (oldv newv a b c : List Char),
      (∀ i < a.length,
          matchAt (mkPat (mvAssignment oldv))
            ((a ++ mvAssignment oldv ++ b ++ mvAssignment oldv ++ c).drop i)
            = false) →
      (∀ i < b.length,
          matchAt (mkPat (mvAssignment oldv))
            ((b ++ mvAssignment oldv ++ c).drop i) = false) →
      (∀ i < c.length,
          matchAt (mkPat (mvAssignment oldv)) (c.drop i) = false) →
      re_sub (mvAssignment oldv) (mvAssignment newv)
          (a ++ mvAssignment oldv ++ b ++ mvAssignment oldv ++ c)
        = a ++ mvAssignment newv ++ b ++ mvAssignment newv ++ c := by
  intro oldv newv a b c ha hb hc
  exact subF_replace_twice (mvAssignment oldv) (mvAssignment newv) a b c
    (mvAssignment_ne_nil oldv) ha hb hc

/-- Witness for claim C10: two build configurations, both rewritten. -/
theorem claim_C10_replaces_all_occurrences_witness :
    re_sub (mvAssignment "2.1.4".toList) (mvAssignment "2.1.5".toList)
        ("X".toList ++ mvAssignment "2.1.4".toList ++ "\n".toList
          ++ mvAssignment "2.1.4".toList ++ "\n".toList)
      = "X".toList ++ mvAssignment "2.1.5".toList ++ "\n".toList
          ++ mvAssignment "2.1.5".toList ++ "\n".toList :=
  claim_C10_replaces_all_occurrences "2.1.4".toList "2.1.5".toList
    "X".toList "\n".toList "\n".toList (by decide) (by decide) (by decide)

end MacSSH

namespace MacSSH

/-!
Feed Updater (`update_appcast_xml`, release_automation.py lines
158-213). The stage checks that the packaged artifact exists, reads its
byte size, takes the current UTC timestamp (modelled as the parameter
`current_date`, since the clock is an input of the stage), falls back to
a placeholder when no notes markup is set, renders one feed item from
two f-string templates, and overwrites the whole feed file with a fixed
envelope around that single item. The templates are transcribed below
fragment by fragment; a sample-instantiation lemma pins the assembled
text to the exact bytes of the Python f-strings.
-/

/-- `dmg_name = f"MacSSH-{self.new_version}.dmg"` (line 162). -/
def dmg_file_name (new_version : String) : String :=
  "MacSSH-" ++ new_version ++ ".dmg"

/-- `tag = f"v{self.new_version}"` (line 176). -/
def release_tag (new_version : String) : String := "v" ++ new_version

/-- `self.release_notes_html or "<ul><li>No release notes provided</li></ul>"`
(line 179): Python `or` takes the placeholder when the field is `None`
or the empty string (both falsy). -/
def notes_or_placeholder (release_notes_html : Option String) : String :=
  match release_notes_html with
  | none => "<ul><li>No release notes provided</li></ul>"
  | some s =>
      if s = "" then "<ul><li>No release notes provided</li></ul>" else s

/-- Item template up to and including the indent before the version tag. -/
def itemP1 (v : String) : String :=
  "        <item>\n            <title>MacSSH " ++ v
    ++ " - Release</title>\n            "

/-- The `sparkle:version` element around the new build number. -/
def itemP2 (b : String) : String :=
  "<sparkle:version>" ++ b ++ "</sparkle:version>"

/-- Line break and indent between the two version elements. -/
def itemP3 : String := "\n            "

/-- The `sparkle:shortVersionString` element around the new version. -/
def itemP4 (v : String) : String :=
  "<sparkle:shortVersionString>" ++ v ++ "</sparkle:shortVersionString>"

/-- Description opening, CDATA header and heading, up to the notes. -/
def itemP5 (v : String) : String :=
  "\n            <description><![CDATA[\n                <h2>What\x27s New in MacSSH "
    ++ v ++ "</h2>\n                "

/-- Description closing up to the indent before the publication date. -/
def itemP6 : String := "\n            ]]></description>\n            "

/-- The `pubDate` element around the publish timestamp. -/
def itemP7 (d : String) : String := "<pubDate>" ++ d ++ "</pubDate>"

/-- Start of the enclosure element. -/
def itemP8 : String := "\n            <enclosure "

/-- `f"https://github.com/Solvetronix/MacSSH/releases/download/{tag}/{dmg_name}"`
(line 190): hosting base, then `/releases/download/v<version>/<artifact>`. -/
def downloadURL (v : String) : String :=
  "https://github.com/Solvetronix/MacSSH/releases/download/"
    ++ release_tag v ++ "/" ++ dmg_file_name v

/-- The `url` attribute of the enclosure. -/
def itemP9 (v : String) : String := "url=\"" ++ downloadURL v ++ "\""

/-- Enclosure attributes between the URL and the length. -/
def itemP10 : String :=
  "\n                       sparkle:os=\"macos\"\n                       "

/-- The `length` attribute carrying the artifact byte size. -/
def itemP11 (size : Nat) : String := "length=\"" ++ pyStrNat size ++ "\""

/-- Enclosure and item closing. -/
def itemP12 : String :=
  "\n                       type=\"application/octet-stream\"/>\n        </item>"

/-- The `new_item` f-string (lines 181-194), assembled from the
fragments above. -/
def mkNewItem (v b notes d : String) (size : Nat) : String :=
  itemP1 v ++ itemP2 b ++ itemP3 ++ itemP4 v ++ itemP5 v ++ notes
    ++ itemP6 ++ itemP7 d ++ itemP8 ++ itemP9 v ++ itemP10
    ++ itemP11 size ++ itemP12

/-- Fixed envelope text above the item (lines 197-205). -/
def appcastHeader : String :=
  "<?xml version=\"1.0\" encoding=\"utf-8\"?>\n<rss version=\"2.0\" xmlns:sparkle=\"http://www.andymatuschak.org/xml-namespaces/sparkle\" xmlns:dc=\"http://purl.org/dc/elements/1.1/\">\n\n    <channel>\n        <title>MacSSH Updates</title>\n        <description>Most recent updates to MacSSH</description>\n        <language>en</language>\n        \n"

/-- Fixed envelope text below the item (lines 205-207). -/
def appcastFooter : String := "\n    </channel>\n</rss>"

/-- The whole `appcast_content` f-string (lines 197-207). -/
def mkAppcastContent (v b notes d : String) (size : Nat) : String :=
  appcastHeader ++ mkNewItem v b notes d size ++ appcastFooter

set_option maxRecDepth 8192 in
/-- Sample instantiation pinning the assembled template to the exact
bytes the Python f-strings produce. -/
lemma mkAppcastContent_sample :
    mkAppcastContent "1.0.1" "11" "<ul><li>x</li></ul>"
        "Mon, 01 Jan 2024 00:00:00 +0000" 123 =
      "<?xml version=\"1.0\" encoding=\"utf-8\"?>\n<rss version=\"2.0\" xmlns:sparkle=\"http://www.andymatuschak.org/xml-namespaces/sparkle\" xmlns:dc=\"http://purl.org/dc/elements/1.1/\">\n\n    <channel>\n        <title>MacSSH Updates</title>\n        <description>Most recent updates to MacSSH</description>\n        <language>en</language>\n        \n        <item>\n            <title>MacSSH 1.0.1 - Release</title>\n            <sparkle:version>11</sparkle:version>\n            <sparkle:shortVersionString>1.0.1</sparkle:shortVersionString>\n            <description><![CDATA[\n                <h2>What\x27s New in MacSSH 1.0.1</h2>\n                <ul><li>x</li></ul>\n            ]]></description>\n            <pubDate>Mon, 01 Jan 2024 00:00:00 +0000</pubDate>\n            <enclosure url=\"https://github.com/Solvetronix/MacSSH/releases/download/v1.0.1/MacSSH-1.0.1.dmg\"\n                       sparkle:os=\"macos\"\n                       length=\"123\"\n                       type=\"application/octet-stream\"/>\n        </item>\n    </channel>\n</rss>" := by
  rfl

/-- State visible to the Feed Updater: whether the artifact file exists,
its byte size, and the current content of the feed file. -/
structure FeedState where
  dmgExists : Bool
  dmgSize : Nat
  appcast : String

/-- Embedding of `MacSSHReleaseAutomation.update_appcast_xml` (lines
158-213). When the artifact is missing, the method logs and returns
(plain `return`, no `sys.exit`): the `Except` layer records that this
stage can never terminate the run, and the feed file is not written.
Otherwise the feed file content is replaced by the assembled envelope. -/
def update_appcast_xml (st : FeedState) (new_version new_build : String)
    (release_notes_html : Option String) (current_date : String) :
    Except Nat FeedState :=
  if st.dmgExists = false then .ok st
  else
    let appcast_content :=
      mkAppcastContent new_version new_build
        (notes_or_placeholder release_notes_html) current_date st.dmgSize
    .ok { st with appcast := appcast_content }

/-- The pattern occurs verbatim somewhere in the string. -/
def substrOf (p s : String) : Prop := ∃ x y, s = x ++ p ++ y

end MacSSH

namespace MacSSH

lemma substr_version_tag (v b n d : String) (sz : Nat) :
    substrOf ("<sparkle:version>" ++ b ++ "</sparkle:version>")
      (mkAppcastContent v b n d sz) :=
  ⟨appcastHeader ++ itemP1 v,
   itemP3 ++ itemP4 v ++ itemP5 v ++ n ++ itemP6 ++ itemP7 d ++ itemP8
     ++ itemP9 v ++ itemP10 ++ itemP11 sz ++ itemP12 ++ appcastFooter,
   by simp [mkAppcastContent, mkNewItem, itemP2, String.append_assoc]⟩

lemma substr_short_version_tag (v b n d : String) (sz : Nat) :
    substrOf ("<sparkle:shortVersionString>" ++ v ++ "</sparkle:shortVersionString>")
      (mkAppcastContent v b n d sz) :=
  ⟨appcastHeader ++ itemP1 v ++ itemP2 b ++ itemP3,
   itemP5 v ++ n ++ itemP6 ++ itemP7 d ++ itemP8
     ++ itemP9 v ++ itemP10 ++ itemP11 sz ++ itemP12 ++ appcastFooter,
   by simp [mkAppcastContent, mkNewItem, itemP4, String.append_assoc]⟩

lemma substr_notes (v b n d : String) (sz : Nat) :
    substrOf n (mkAppcastContent v b n d sz) :=
  ⟨appcastHeader ++ itemP1 v ++ itemP2 b ++ itemP3 ++ itemP4 v ++ itemP5 v,
   itemP6 ++ itemP7 d ++ itemP8
     ++ itemP9 v ++ itemP10 ++ itemP11 sz ++ itemP12 ++ appcastFooter,
   by simp [mkAppcastContent, mkNewItem, String.append_assoc]⟩

lemma substr_pubdate (v b n d : String) (sz : Nat) :
    substrOf ("<pubDate>" ++ d ++ "</pubDate>") (mkAppcastContent v b n d sz) :=
  ⟨appcastHeader ++ itemP1 v ++ itemP2 b ++ itemP3 ++ itemP4 v ++ itemP5 v
     ++ n ++ itemP6,
   itemP8 ++ itemP9 v ++ itemP10 ++ itemP11 sz ++ itemP12 ++ appcastFooter,
   by simp [mkAppcastContent, mkNewItem, itemP7, String.append_assoc]⟩

lemma substr_url (v b n d : String) (sz : Nat) :
    substrOf (downloadURL v) (mkAppcastContent v b n d sz) :=
  ⟨appcastHeader ++ itemP1 v ++ itemP2 b ++ itemP3 ++ itemP4 v ++ itemP5 v
     ++ n ++ itemP6 ++ itemP7 d ++ itemP8 ++ "url=\"",
   "\"" ++ itemP10 ++ itemP11 sz ++ itemP12 ++ appcastFooter,
   by simp [mkAppcastContent, mkNewItem, itemP9, String.append_assoc]⟩

lemma substr_length_attr (v b n d : String) (sz : Nat) :
    substrOf ("length=\"" ++ pyStrNat sz ++ "\"") (mkAppcastContent v b n d sz) :=
  ⟨appcastHeader ++ itemP1 v ++ itemP2 b ++ itemP3 ++ itemP4 v ++ itemP5 v
     ++ n ++ itemP6 ++ itemP7 d ++ itemP8 ++ itemP9 v ++ itemP10,
   itemP12 ++ appcastFooter,
   by simp [mkAppcastContent, mkNewItem, itemP11, String.append_assoc]⟩

/-- Claim C4: when the artifact exists, the feed file content becomes
exactly the fixed envelope around the single rendered entry — whatever
the feed contained before is discarded — and the entry embeds the new
version, the new build number, the notes markup (or the placeholder
when the notes are `None` or empty), the publish timestamp, the
artifact byte size, and the download URL
`<hosting-base>/releases/download/v<version>/<artifact-filename>`. -/
theorem claim_C4_feed_single_entry :
    ∀ (st : FeedState) (v b : String) (notes : Option String) (d : String),
      st.dmgExists = true →
      update_appcast_xml st v b notes d =
          .ok { st with appcast :=
            mkAppcastContent v b (notes_or_placeholder notes) d st.dmgSize }
        ∧ (∀ prior : String,
            update_appcast_xml { st with appcast := prior } v b notes d
              = update_appcast_xml st v b notes d)
        ∧ mkAppcastContent v b (notes_or_placeholder notes) d st.dmgSize
            = appcastHeader
                ++ mkNewItem v b (notes_or_placeholder notes) d st.dmgSize
                ++ appcastFooter
        ∧ substrOf ("<sparkle:version>" ++ b ++ "</sparkle:version>")
            (mkAppcastContent v b (notes_or_placeholder notes) d st.dmgSize)
        ∧ substrOf
            ("<sparkle:shortVersionString>" ++ v ++ "</sparkle:shortVersionString>")
            (mkAppcastContent v b (notes_or_placeholder notes) d st.dmgSize)
        ∧ substrOf (notes_or_placeholder notes)
            (mkAppcastContent v b (notes_or_placeholder notes) d st.dmgSize)
        ∧ substrOf ("<pubDate>" ++ d ++ "</pubDate>")
            (mkAppcastContent v b (notes_or_placeholder notes) d st.dmgSize)
        ∧ substrOf (downloadURL v)
            (mkAppcastContent v b (notes_or_placeholder notes) d st.dmgSize)
        ∧ downloadURL v
            = "https://github.com/Solvetronix/MacSSH/releases/download/"
                ++ release_tag v ++ "/" ++ dmg_file_name v
        ∧ release_tag v = "v" ++ v
        ∧ dmg_file_name v = "MacSSH-" ++ v ++ ".dmg"
        ∧ substrOf ("length=\"" ++ pyStrNat st.dmgSize ++ "\"")
            (mkAppcastContent v b (notes_or_placeholder notes) d st.dmgSize)
        ∧ ((notes = none ∨ notes = some "") →
            notes_or_placeholder notes
              = "<ul><li>No release notes provided</li></ul>") := by
  intro st v b notes d h
  refine ⟨?_, ?_, rfl, substr_version_tag v b _ d st.dmgSize,
    substr_short_version_tag v b _ d st.dmgSize,
    substr_notes v b _ d st.dmgSize,
    substr_pubdate v b _ d st.dmgSize,
    substr_url v b _ d st.dmgSize, rfl, rfl, rfl,
    substr_length_attr v b _ d st.dmgSize, ?_⟩
  · simp [update_appcast_xml, h]
  · intro prior
    simp [update_appcast_xml, h]
  · rintro (rfl | rfl) <;> simp [notes_or_placeholder]

/-- Witness for claim C4 at concrete inputs, including prior feed
content being irrelevant to the produced document. -/
theorem claim_C4_feed_single_entry_witness :
    update_appcast_xml ⟨true, 123, "OLD FEED WITH MANY ITEMS"⟩ "1.0.1" "11"
        (some "<ul><li>x</li></ul>") "Mon, 01 Jan 2024 00:00:00 +0000"
      = .ok ⟨true, 123,
          mkAppcastContent "1.0.1" "11" "<ul><li>x</li></ul>"
            "Mon, 01 Jan 2024 00:00:00 +0000" 123⟩
    ∧ update_appcast_xml ⟨true, 123, "A COMPLETELY DIFFERENT PRIOR FEED"⟩
        "1.0.1" "11" (some "<ul><li>x</li></ul>")
        "Mon, 01 Jan 2024 00:00:00 +0000"
      = update_appcast_xml ⟨true, 123, "OLD FEED WITH MANY ITEMS"⟩ "1.0.1" "11"
          (some "<ul><li>x</li></ul>") "Mon, 01 Jan 2024 00:00:00 +0000"
    ∧ substrOf ("<pubDate>" ++ "Mon, 01 Jan 2024 00:00:00 +0000" ++ "</pubDate>")
        (mkAppcastContent "1.0.1" "11" "<ul><li>x</li></ul>"
          "Mon, 01 Jan 2024 00:00:00 +0000" 123)
    ∧ downloadURL "1.0.1"
        = "https://github.com/Solvetronix/MacSSH/releases/download/v1.0.1/MacSSH-1.0.1.dmg" := by
  have h := claim_C4_feed_single_entry ⟨true, 123, "OLD FEED WITH MANY ITEMS"⟩
    "1.0.1" "11" (some "<ul><li>x</li></ul>")
    "Mon, 01 Jan 2024 00:00:00 +0000" rfl
  refine ⟨h.1, h.2.1 "A COMPLETELY DIFFERENT PRIOR FEED", h.2.2.2.2.2.2.1,
    h.2.2.2.2.2.2.2.2.1.trans ?_⟩
  rfl

/-- Claim C5: when the artifact file is missing, the Feed Updater logs
and returns normally (this stage contains no `sys.exit`, so it cannot
terminate the run), and the feed state — in particular the feed file
content — is left completely unchanged: no write happens. -/
theorem claim_C5_missing_artifact_skip :
    ∀ (st : FeedState) (v b : String) (notes : Option String) (d : String),
      st.dmgExists = false →
      update_appcast_xml st v b notes d = .ok st := by
  intro st v b notes d h
  simp [update_appcast_xml, h]

/-- Witness for claim C5 at a concrete input. -/
theorem claim_C5_missing_artifact_skip_witness :
    update_appcast_xml ⟨false, 0, "previous feed content"⟩ "1.0.1" "11" none
        "Mon, 01 Jan 2024 00:00:00 +0000"
      = .ok ⟨false, 0, "previous feed content"⟩ :=
  claim_C5_missing_artifact_skip ⟨false, 0, "previous feed content"⟩
    "1.0.1" "11" none "Mon, 01 Jan 2024 00:00:00 +0000" rfl

end MacSSH

namespace MacSSH

/-!
Package Builder (`create_dmg`, release_automation.py lines 307-364).
The stage locates the built `MacSSH.app` through three `find` fallbacks
(Release path, Products/Release path, any match), exits fatally when
none matches, isolates the bundle in `/tmp/MacSSH-<new version>`
(first removing a pre-existing scratch directory), invokes `create-dmg`
through `run_command` with `check=True` — so a nonzero exit of the
packaging tool makes `run_command` call `sys.exit(1)` — and only then
reaches `shutil.rmtree(temp_dir)` (line 361). The filesystem side
effects are recorded as an ordered trace.
-/

/-- Side effects of the Package Builder, in program order. -/
inductive DmgEffect where
  | rmtreePreexisting
  | mkdirTemp
  | copyApp
  | runCreateDmg
  | rmtreeTemp
deriving DecidableEq

/-- Environment the Package Builder observes: the standard output of
the three `find` fallbacks, whether the scratch directory already
exists, and the exit code of the `create-dmg` invocation. -/
structure DmgEnv where
  findReleaseOut : String
  findProductsOut : String
  findAnyOut : String
  tempDirExists : Bool
  createDmgExitCode : Nat

/-- Whitespace test for the model of the Python method `str.strip`
(covers the whitespace characters that can occur in command output). -/
def isSpaceChar (c : Char) : Bool :=
  c = ' ' || c = '\t' || c = '\n' || c = '\r'

/-- Model of the Python method `str.strip` with no argument: remove
leading and trailing whitespace. -/
def pyStrip (s : String) : String :=
  String.mk (((s.toList.dropWhile isSpaceChar).reverse.dropWhile
    isSpaceChar).reverse)

/-- The app-path discovery cascade (lines 313-338): first nonempty
stripped stdout among the three `find` invocations. -/
def locate_app (env : DmgEnv) : String :=
  let out1 := pyStrip env.findReleaseOut
  let out2 := if out1 = "" then pyStrip env.findProductsOut else out1
  if out2 = "" then pyStrip env.findAnyOut else out2

/-- Embedding of `MacSSHReleaseAutomation.create_dmg` (lines 307-364):
returns the ordered effect trace together with either the produced
artifact name or the process exit code 1. With `check=True`,
`run_command` calls `sys.exit(1)` when `create-dmg` exits nonzero, so
execution never reaches the `shutil.rmtree` cleanup on that path. -/
def create_dmg (new_version : String) (env : DmgEnv) :
    List DmgEffect × Except Nat String :=
  if locate_app env = "" then ([], .error 1)
  else
    let pre := (if env.tempDirExists then [DmgEffect.rmtreePreexisting] else [])
      ++ [DmgEffect.mkdirTemp, DmgEffect.copyApp, DmgEffect.runCreateDmg]
    if env.createDmgExitCode = 0 then
      (pre ++ [DmgEffect.rmtreeTemp], .ok ("MacSSH-" ++ new_version ++ ".dmg"))
    else (pre, .error 1)

/-- Claim C3 as stated is false: when the packaging tool exits nonzero,
`run_command` (called with `check=True`) terminates the process before
line 361, so the scratch directory is not deleted on the failure
path. -/
theorem claim_C3_counterexample :
    (create_dmg "1.0.1"
        ⟨"/DerivedData/MacSSH/Build/Products/Release/MacSSH.app", "", "",
          false, 2⟩).2 = .error 1
    ∧ DmgEffect.rmtreeTemp ∉
        (create_dmg "1.0.1"
          ⟨"/DerivedData/MacSSH/Build/Products/Release/MacSSH.app", "", "",
            false, 2⟩).1 := by
  constructor
  · rfl
  · decide

/-- Claim C3 amended: the scratch-directory cleanup executes exactly on
the packaging-success path; when `create-dmg` exits nonzero the run
stops with process exit 1 before the cleanup statement and the scratch
directory is left behind. -/
theorem claim_C3_amended_cleanup :
    ∀ (v : String) (env : DmgEnv),
      locate_app env ≠ "" →
      (env.createDmgExitCode = 0 →
          DmgEffect.rmtreeTemp ∈ (create_dmg v env).1 ∧
          (create_dmg v env).2 = .ok ("MacSSH-" ++ v ++ ".dmg"))
      ∧ (env.createDmgExitCode ≠ 0 →
          DmgEffect.rmtreeTemp ∉ (create_dmg v env).1 ∧
          (create_dmg v env).2 = .error 1) := by
  intro v env hfind
  constructor
  · intro h0
    unfold create_dmg
    rw [if_neg hfind, if_pos h0]
    constructor
    · simp
    · rfl
  · intro h0
    unfold create_dmg
    rw [if_neg hfind, if_neg h0]
    constructor
    · by_cases ht : env.tempDirExists = true
      · simp [ht]
      · simp at ht
        simp [ht]
    · rfl

/-- Witness for the amended claim C3: cleanup present on success,
absent on packaging failure. -/
theorem claim_C3_amended_cleanup_witness :
    (DmgEffect.rmtreeTemp ∈
        (create_dmg "1.0.1" ⟨"/a/Release/MacSSH.app", "", "", true, 0⟩).1
      ∧ (create_dmg "1.0.1" ⟨"/a/Release/MacSSH.app", "", "", true, 0⟩).2
          = .ok ("MacSSH-" ++ "1.0.1" ++ ".dmg"))
    ∧ (DmgEffect.rmtreeTemp ∉
        (create_dmg "1.0.1" ⟨"/a/Release/MacSSH.app", "", "", true, 3⟩).1
      ∧ (create_dmg "1.0.1" ⟨"/a/Release/MacSSH.app", "", "", true, 3⟩).2
          = .error 1) :=
  ⟨(claim_C3_amended_cleanup "1.0.1"
      ⟨"/a/Release/MacSSH.app", "", "", true, 0⟩ (by decide)).1 rfl,
   (claim_C3_amended_cleanup "1.0.1"
      ⟨"/a/Release/MacSSH.app", "", "", true, 3⟩ (by decide)).2 (by decide)⟩

end MacSSH

namespace MacSSH

/-!
Orchestrator (`run_full_release`, release_automation.py lines 409-477,
and `main`, lines 479-506). Stages run in order inside a
`try/except KeyboardInterrupt/except Exception` block. A `sys.exit(1)`
inside a stage raises `SystemExit`, which neither handler catches, so
the process exits 1; any other exception reaches `except Exception`,
which logs and calls `sys.exit(1)`; a `KeyboardInterrupt` is logged as
a warning and the method returns, so the process exits 0. After the
release-notes stage, `input("...").strip().lower()` is compared against
the literal `"y"`: anything else logs and returns, process exit 0, with
no later stage run. A completed run also returns normally, exit 0.
Each stage is modelled by its observable outcome; the model returns the
process exit status and the ordered list of stages that started.
-/

/-- Model of the Python method `str.lower` (ASCII case folding, enough
for the confirmation prompt). -/
def pyLower (s : String) : String := String.mk (s.toList.map Char.toLower)

/-- Outcome of one stage: normal return, `sys.exit(1)` inside the stage,
an exception reaching the top-level `except Exception` handler, or a
`KeyboardInterrupt`. -/
inductive StageOutcome where
  | ok
  | exits1
  | raises
  | interrupt
deriving DecidableEq

/-- The stages of `run_full_release`, in program order. -/
inductive Stage where
  | getVersions
  | calcVersions
  | promptNotes
  | confirmGate
  | updatePbx
  | updatePlist
  | localBuild
  | createDmgStage
  | updateAppcast
  | commitPush
  | createRelease
  | uploadDmg
deriving DecidableEq

/-- Environment of one run: each stage's outcome plus the text typed at
the confirmation prompt. -/
structure RunEnv where
  getVersions : StageOutcome
  calcVersions : StageOutcome
  promptNotes : StageOutcome
  confirmGate : StageOutcome
  confirmText : String
  updatePbx : StageOutcome
  updatePlist : StageOutcome
  localBuild : StageOutcome
  createDmgStage : StageOutcome
  updateAppcast : StageOutcome
  commitPush : StageOutcome
  createRelease : StageOutcome
  uploadDmg : StageOutcome

/-- Process exit forced by a stage outcome, if any: `sys.exit(1)` and
exceptions give exit 1, a `KeyboardInterrupt` gives exit 0 (warning
logged, normal return), a normal return lets the run continue. -/
def outcomeExit : StageOutcome → Option Nat
  | .ok => none
  | .exits1 => some 1
  | .raises => some 1
  | .interrupt => some 0

/-- Run a list of stages in order, stopping at the first one whose
outcome forces a process exit; returns the stages that started and the
forced exit, if any. -/
def runSeq : List (Stage × StageOutcome) → List Stage × Option Nat
  | [] => ([], none)
  | (s, o) :: rest =>
      match outcomeExit o with
      | some c => ([s], some c)
      | none =>
          let r := runSeq rest
          (s :: r.1, r.2)

/-- Stages before the confirmation gate (lines 415-422). -/
def preStages (env : RunEnv) : List (Stage × StageOutcome) :=
  [(Stage.getVersions, env.getVersions),
   (Stage.calcVersions, env.calcVersions),
   (Stage.promptNotes, env.promptNotes)]

/-- Stages after the confirmation gate (lines 440-467): these are the
stages that mutate files or publish (project file, plist, build, dmg,
feed, commit and push, release creation, upload). -/
def postStages (env : RunEnv) : List (Stage × StageOutcome) :=
  [(Stage.updatePbx, env.updatePbx),
   (Stage.updatePlist, env.updatePlist),
   (Stage.localBuild, env.localBuild),
   (Stage.createDmgStage, env.createDmgStage),
   (Stage.updateAppcast, env.updateAppcast),
   (Stage.commitPush, env.commitPush),
   (Stage.createRelease, env.createRelease),
   (Stage.uploadDmg, env.uploadDmg)]

/-- Embedding of `run_full_release` plus the top-level handlers and
`main`: produces the process exit status and the stages that started. -/
def run_full_release (env : RunEnv) : Nat × List Stage :=
  match runSeq (preStages env) with
  | (ts, some c) => (c, ts)
  | (ts, none) =>
      match outcomeExit env.confirmGate with
      | some c => (c, ts ++ [Stage.confirmGate])
      | none =>
          if pyLower (pyStrip env.confirmText) ≠ "y" then
            (0, ts ++ [Stage.confirmGate])
          else
            match runSeq (postStages env) with
            | (us, some c) => (c, ts ++ Stage.confirmGate :: us)
            | (us, none) => (0, ts ++ Stage.confirmGate :: us)

lemma runSeq_all_ok : ∀ (l : List (Stage × StageOutcome)),
    (∀ p ∈ l, p.2 = StageOutcome.ok) → runSeq l = (l.map Prod.fst, none) := by
  intro l h
  induction l with
  | nil => rfl
  | cons p rest ih =>
      obtain ⟨s, o⟩ := p
      have ho : o = StageOutcome.ok := h (s, o) (List.mem_cons_self _ _)
      subst ho
      simp only [runSeq, outcomeExit, List.map_cons]
      rw [ih (fun q hq => h q (List.mem_cons_of_mem _ hq))]

lemma runSeq_fatal : ∀ (l1 : List (Stage × StageOutcome)) (s : Stage)
    (o : StageOutcome) (l2 : List (Stage × StageOutcome)) (c : Nat),
    (∀ p ∈ l1, p.2 = StageOutcome.ok) → outcomeExit o = some c →
    runSeq (l1 ++ (s, o) :: l2) = (l1.map Prod.fst ++ [s], some c) := by
  intro l1
  induction l1 with
  | nil =>
      intro s o l2 c _ ho
      simp [runSeq, ho]
  | cons p rest ih =>
      intro s o l2 c h ho
      obtain ⟨s', o'⟩ := p
      have ho' : o' = StageOutcome.ok := h (s', o') (List.mem_cons_self _ _)
      subst ho'
      simp only [List.cons_append, runSeq, outcomeExit, List.map_cons,
        List.append_eq]
      rw [ih s o l2 c (fun q hq => h q (List.mem_cons_of_mem _ hq)) ho]

end MacSSH

namespace MacSSH

/-- Claim C6: the process exits 1 on any fatal stage failure (a
`sys.exit(1)` inside a stage or an exception reaching the top-level
handler), and exits 0 both on full success and when the operator
declines the confirmation prompt, in which case no stage after the
confirmation gate starts — in particular none of the file-mutating
stages runs. -/
theorem claim_C6_exit_codes :
    (∀ env : RunEnv,
        env.getVersions = .ok → env.calcVersions = .ok →
        env.promptNotes = .ok → env.confirmGate = .ok →
        pyLower (pyStrip env.confirmText) ≠ "y" →
        run_full_release env =
          (0, [Stage.getVersions, Stage.calcVersions, Stage.promptNotes,
               Stage.confirmGate]))
    ∧ (∀ env : RunEnv,
        env.getVersions = .ok → env.calcVersions = .ok →
        env.promptNotes = .ok → env.confirmGate = .ok →
        pyLower (pyStrip env.confirmText) = "y" →
        (∀ p ∈ postStages env, p.2 = StageOutcome.ok) →
        (run_full_release env).1 = 0)
    ∧ (∀ (env : RunEnv) (l1 : List (Stage × StageOutcome)) (s : Stage)
        (o : StageOutcome) (l2 : List (Stage × StageOutcome)),
        preStages env = l1 ++ (s, o) :: l2 →
        (∀ p ∈ l1, p.2 = StageOutcome.ok) →
        (o = .exits1 ∨ o = .raises) →
        (run_full_release env).1 = 1)
    ∧ (∀ env : RunEnv,
        env.getVersions = .ok → env.calcVersions = .ok →
        env.promptNotes = .ok →
        (env.confirmGate = .exits1 ∨ env.confirmGate = .raises) →
        (run_full_release env).1 = 1)
    ∧ (∀ (env : RunEnv) (l1 : List (Stage × StageOutcome)) (s : Stage)
        (o : StageOutcome) (l2 : List (Stage × StageOutcome)),
        env.getVersions = .ok → env.calcVersions = .ok →
        env.promptNotes = .ok → env.confirmGate = .ok →
        pyLower (pyStrip env.confirmText) = "y" →
        postStages env = l1 ++ (s, o) :: l2 →
        (∀ p ∈ l1, p.2 = StageOutcome.ok) →
        (o = .exits1 ∨ o = .raises) →
        (run_full_release env).1 = 1) := by
  have hepre : ∀ env : RunEnv,
      env.getVersions = .ok → env.calcVersions = .ok →
      env.promptNotes = .ok →
      runSeq (preStages env) =
        ([Stage.getVersions, Stage.calcVersions, Stage.promptNotes], none) := by
    intro env h1 h2 h3
    have hok : ∀ p ∈ preStages env, p.2 = StageOutcome.ok := by
      intro p hp
      simp only [preStages, List.mem_cons, List.not_mem_nil, or_false] at hp
      rcases hp with rfl | rfl | rfl <;> assumption
    rw [runSeq_all_ok _ hok]
    simp [preStages]
  refine ⟨?_, ?_, ?_, ?_, ?_⟩
  · intro env h1 h2 h3 h4 h5
    simp only [run_full_release, hepre env h1 h2 h3, h4, outcomeExit]
    rw [if_pos h5]
    rfl
  · intro env h1 h2 h3 h4 h5 hpost
    simp only [run_full_release, hepre env h1 h2 h3, h4, outcomeExit]
    rw [if_neg (fun hne => hne h5), runSeq_all_ok _ hpost]
  · intro env l1 s o l2 hsplit hok hf
    have ho : outcomeExit o = some 1 := by rcases hf with rfl | rfl <;> rfl
    simp only [run_full_release, hsplit, runSeq_fatal l1 s o l2 1 hok ho]
  · intro env h1 h2 h3 hf
    have ho : outcomeExit env.confirmGate = some 1 := by
      rcases hf with hf | hf <;> rw [hf] <;> rfl
    simp only [run_full_release, hepre env h1 h2 h3, ho]
  · intro env l1 s o l2 h1 h2 h3 h4 h5 hsplit hok hf
    have ho : outcomeExit o = some 1 := by rcases hf with rfl | rfl <;> rfl
    simp only [run_full_release, hepre env h1 h2 h3, h4, outcomeExit]
    rw [if_neg (fun hne => hne h5)]
    simp only [hsplit, runSeq_fatal l1 s o l2 1 hok ho]

/-- Witness for claim C6: a declined run exits 0 with no post-gate
stage, an all-success run exits 0, and a fatal outcome before the gate,
at the gate, or after the gate exits 1. -/
theorem claim_C6_exit_codes_witness :
    run_full_release
        ⟨.ok, .ok, .ok, .ok, "n", .ok, .ok, .ok, .ok, .ok, .ok, .ok, .ok⟩ =
      (0, [Stage.getVersions, Stage.calcVersions, Stage.promptNotes,
           Stage.confirmGate])
    ∧ (run_full_release
        ⟨.ok, .ok, .ok, .ok, " Y ", .ok, .ok, .ok, .ok, .ok, .ok, .ok, .ok⟩).1
        = 0
    ∧ (run_full_release
        ⟨.ok, .exits1, .ok, .ok, "y", .ok, .ok, .ok, .ok, .ok, .ok, .ok, .ok⟩).1
        = 1
    ∧ (run_full_release
        ⟨.ok, .ok, .ok, .raises, "y", .ok, .ok, .ok, .ok, .ok, .ok, .ok, .ok⟩).1
        = 1
    ∧ (run_full_release
        ⟨.ok, .ok, .ok, .ok, "y", .ok, .ok, .ok, .ok, .ok, .raises, .ok, .ok⟩).1
        = 1 := by
  refine ⟨?_, ?_, ?_, ?_, ?_⟩
  · exact claim_C6_exit_codes.1 _ rfl rfl rfl rfl (by decide)
  · exact claim_C6_exit_codes.2.1 _ rfl rfl rfl rfl (by decide) (by decide)
  · exact claim_C6_exit_codes.2.2.1 _ [(Stage.getVersions, .ok)]
      Stage.calcVersions .exits1 [(Stage.promptNotes, .ok)] rfl (by decide)
      (Or.inl rfl)
  · exact claim_C6_exit_codes.2.2.2.1 _ rfl rfl rfl (Or.inr rfl)
  · exact claim_C6_exit_codes.2.2.2.2 _
      [(Stage.updatePbx, .ok), (Stage.updatePlist, .ok),
       (Stage.localBuild, .ok), (Stage.createDmgStage, .ok),
       (Stage.updateAppcast, .ok)]
      Stage.commitPush .raises
      [(Stage.createRelease, .ok), (Stage.uploadDmg, .ok)]
      rfl rfl rfl rfl (by decide) rfl (by decide) (Or.inr rfl)

end MacSSH

namespace MacSSH

/-!
Release-notes markup renderer (`format_release_notes_as_html`,
release_automation.py lines 248-253): an empty list of lines renders
the fixed placeholder list; otherwise each line is wrapped as
`<li>{line}</li>`, the items are joined with newlines, and the result
is wrapped in `<ul>\n...\n</ul>`. Lines are modelled as `List Char`.
To state that the rendering contains exactly the input lines as list
items in order, `listItems` parses back the text between `<li>` and
`</li>` markers, scanning left to right.
-/

/-- The `<li>` opening marker. -/
def liTag : List Char := "<li>".toList

/-- The `</li>` closing marker. -/
def closeTag : List Char := "</li>".toList

/-- `f"<li>{line}</li>"` (line 252). -/
def liWrap (l : List Char) : List Char := liTag ++ l ++ closeTag

/-- Model of `"\n".join(items)` (line 252). -/
def joinNL : List (List Char) → List Char
  | [] => []
  | [x] => x
  | x :: y :: rest => x ++ '\n' :: joinNL (y :: rest)

/-- Embedding of `MacSSHReleaseAutomation.format_release_notes_as_html`
(lines 248-253). -/
def format_release_notes_as_html (lines : List (List Char)) : List Char :=
  if lines = [] then "<ul><li>No changes listed</li></ul>".toList
  else "<ul>\n".toList ++ joinNL (lines.map liWrap) ++ "\n</ul>".toList

/-- Scan up to the first `</li>`: returns the consumed text and the
rest after the marker. -/
def takeUntilClose : List Char → Option (List Char × List Char)
  | [] => none
  | c :: cs =>
      match closeTag.isPrefixOf (c :: cs) with
      | true => some ([], cs.drop 4)
      | false =>
          match takeUntilClose cs with
          | none => none
          | some (a, r) => some (c :: a, r)

/-- Fuel-driven worker for `listItems`. -/
def listItemsAux : Nat → List Char → List (List Char)
  | _, [] => []
  | 0, _ => []
  | fuel + 1, c :: cs =>
      match liTag.isPrefixOf (c :: cs) with
      | true =>
          match takeUntilClose (cs.drop 3) with
          | some (a, r) => a :: listItemsAux fuel r
          | none => []
      | false => listItemsAux fuel cs

/-- The list items of a markup text: the texts between each `<li>` and
the next `</li>`, left to right. -/
def listItems (s : List Char) : List (List Char) := listItemsAux s.length s

lemma takeUntilClose_length : ∀ (l a r : List Char),
    takeUntilClose l = some (a, r) → r.length < l.length := by
  intro l
  induction l with
  | nil => intro a r h; simp [takeUntilClose] at h
  | cons c cs ih =>
      intro a r h
      simp only [takeUntilClose] at h
      cases hp : closeTag.isPrefixOf (c :: cs) with
      | true =>
          rw [hp] at h
          have h' := Option.some.inj h
          have hr := congrArg Prod.snd h'
          simp only at hr
          rw [← hr, List.length_drop]
          simp only [List.length_cons]
          omega
      | false =>
          rw [hp] at h
          cases heq : takeUntilClose cs with
          | none => rw [heq] at h; exact absurd h (by simp)
          | some p =>
              obtain ⟨a', r'⟩ := p
              rw [heq] at h
              have h' := Option.some.inj h
              have hr := congrArg Prod.snd h'
              simp only at hr
              rw [← hr]
              have := ih a' r' heq
              simp only [List.length_cons]
              omega

lemma listItemsAux_irrel (f1 : Nat) : ∀ f2 s, s.length ≤ f1 → s.length ≤ f2 →
    listItemsAux f1 s = listItemsAux f2 s := by
  induction f1 with
  | zero =>
      intro f2 s h1 _
      have : s = [] := List.length_eq_zero.mp (Nat.le_zero.mp h1)
      subst this
      cases f2 <;> rfl
  | succ f1 ih =>
      intro f2 s h1 h2
      cases s with
      | nil => cases f2 <;> rfl
      | cons c cs =>
          obtain ⟨f2p, rfl⟩ : ∃ f2p, f2 = f2p + 1 :=
            ⟨f2 - 1, by simp at h2; omega⟩
          simp only [listItemsAux]
          simp only [List.length_cons] at h1 h2
          cases hp : liTag.isPrefixOf (c :: cs) with
          | true =>
              cases heq : takeUntilClose (cs.drop 3) with
              | none => rfl
              | some p =>
                  obtain ⟨a, r⟩ := p
                  have hlt := takeUntilClose_length _ a r heq
                  rw [List.length_drop] at hlt
                  show a :: listItemsAux f1 r = a :: listItemsAux f2p r
                  rw [ih f2p r (by omega) (by omega)]
          | false => exact ih f2p cs (by omega) (by omega)

/-- Unfolding equation for `listItems` on a nonempty text. -/
lemma listItems_cons_eq (c : Char) (cs : List Char) :
    listItems (c :: cs) =
      match liTag.isPrefixOf (c :: cs) with
      | true =>
          match takeUntilClose (cs.drop 3) with
          | some (a, r) => a :: listItems r
          | none => []
      | false => listItems cs := by
  show listItemsAux (cs.length + 1) (c :: cs) = _
  simp only [listItemsAux]
  cases hp : liTag.isPrefixOf (c :: cs) with
  | true =>
      cases heq : takeUntilClose (cs.drop 3) with
      | none => rfl
      | some p =>
          obtain ⟨a, r⟩ := p
          have hlt := takeUntilClose_length _ a r heq
          rw [List.length_drop] at hlt
          show a :: listItemsAux cs.length r = a :: listItems r
          rw [listItemsAux_irrel cs.length r.length r (by omega) (le_refl _)]
          rfl
  | false => rfl

lemma listItems_skip (c : Char) (cs : List Char)
    (h : liTag.isPrefixOf (c :: cs) = false) :
    listItems (c :: cs) = listItems cs := by
  rw [listItems_cons_eq, h]

lemma isPrefixOf_append_of_le : ∀ (p a ys : List Char), p.length ≤ a.length →
    p.isPrefixOf (a ++ ys) = p.isPrefixOf a := by
  intro p
  induction p with
  | nil => intro a ys _; simp
  | cons q qs ih =>
      intro a ys h
      cases a with
      | nil => simp at h
      | cons b bs =>
          simp only [List.cons_append, List.isPrefixOf_cons₂]
          rw [ih bs ys (by simp at h; omega)]

lemma isPrefixOf_drop_append (p xs ys : List Char) (i : Nat)
    (hle : i + p.length ≤ xs.length) :
    p.isPrefixOf ((xs ++ ys).drop i) = p.isPrefixOf (xs.drop i) := by
  rw [List.drop_append_of_le_length (by omega)]
  exact isPrefixOf_append_of_le p (xs.drop i) ys (by rw [List.length_drop]; omega)

/-- A notes line is safe for extraction when the closing marker does not
occur at any position strictly inside it (also not straddling its
end). -/
def noEarlyClose (l : List Char) : Prop :=
  ∀ i < l.length, closeTag.isPrefixOf ((l ++ closeTag).drop i) = false

instance noEarlyClose_dec (l : List Char) : Decidable (noEarlyClose l) :=
  inferInstanceAs (Decidable (∀ i < l.length,
    closeTag.isPrefixOf ((l ++ closeTag).drop i) = false))

lemma takeUntilClose_exact : ∀ (l rest : List Char),
    (∀ i < l.length,
      closeTag.isPrefixOf ((l ++ closeTag ++ rest).drop i) = false) →
    takeUntilClose (l ++ closeTag ++ rest) = some (l, rest) := by
  intro l
  induction l with
  | nil =>
      intro rest _
      show takeUntilClose ('<' :: ('/' :: 'l' :: 'i' :: '>' :: rest))
        = some ([], rest)
      simp only [takeUntilClose]
      rw [show closeTag.isPrefixOf ('<' :: ('/' :: 'l' :: 'i' :: '>' :: rest))
          = true from isPrefixOf_self_append closeTag rest]
      rfl
  | cons x l' ih =>
      intro rest h
      have h0 : closeTag.isPrefixOf (x :: (l' ++ closeTag ++ rest)) = false := by
        have := h 0 (by simp)
        simpa using this
      show takeUntilClose (x :: (l' ++ closeTag ++ rest)) = some (x :: l', rest)
      simp only [takeUntilClose]
      rw [h0, ih rest (fun i hi => by
        have := h (i + 1) (by simp only [List.length_cons]; omega)
        simpa [List.drop_succ_cons] using this)]

lemma listItems_item_head (l X : List Char) (hl : noEarlyClose l) :
    listItems (liWrap l ++ X) = l :: listItems X := by
  have hshape : liWrap l ++ X
      = '<' :: 'l' :: 'i' :: '>' :: (l ++ (closeTag ++ X)) := by
    simp [liWrap, liTag, closeTag, List.append_assoc]
  rw [hshape, listItems_cons_eq]
  have hpos : liTag.isPrefixOf
      ('<' :: 'l' :: 'i' :: '>' :: (l ++ (closeTag ++ X))) = true :=
    isPrefixOf_self_append liTag (l ++ (closeTag ++ X))
  rw [hpos]
  have hdrop : ('l' :: 'i' :: '>' :: (l ++ (closeTag ++ X))).drop 3
      = l ++ closeTag ++ X := by
    simp [List.append_assoc]
  rw [hdrop]
  have hexact : takeUntilClose (l ++ closeTag ++ X) = some (l, X) := by
    apply takeUntilClose_exact
    intro i hi
    have hlen : i + closeTag.length ≤ (l ++ closeTag).length := by
      rw [List.length_append]
      omega
    rw [isPrefixOf_drop_append closeTag (l ++ closeTag) X i hlen]
    exact hl i hi
  rw [hexact]

lemma liTag_not_head (c : Char) (cs : List Char) (hc : c ≠ '<') :
    liTag.isPrefixOf (c :: cs) = false := by
  show List.isPrefixOf ['<', 'l', 'i', '>'] (c :: cs) = false
  rw [List.isPrefixOf_cons₂]
  have hb : ('<' == c) = false := beq_eq_false_iff_ne.mpr (Ne.symm hc)
  rw [hb, Bool.false_and]

lemma liTag_not_second (c2 : Char) (cs : List Char) (hc : c2 ≠ 'l') :
    liTag.isPrefixOf ('<' :: c2 :: cs) = false := by
  show List.isPrefixOf ['<', 'l', 'i', '>'] ('<' :: c2 :: cs) = false
  rw [List.isPrefixOf_cons₂]
  have h2 : List.isPrefixOf ['l', 'i', '>'] (c2 :: cs) = false := by
    rw [List.isPrefixOf_cons₂]
    have hb : ('l' == c2) = false := beq_eq_false_iff_ne.mpr (Ne.symm hc)
    rw [hb, Bool.false_and]
  rw [h2, Bool.and_false]

lemma listItems_ul_skip (X : List Char) :
    listItems ('<' :: 'u' :: 'l' :: '>' :: '\n' :: X) = listItems X := by
  rw [listItems_skip _ _ (liTag_not_second 'u' _ (by decide)),
     listItems_skip _ _ (liTag_not_head 'u' _ (by decide)),
     listItems_skip _ _ (liTag_not_head 'l' _ (by decide)),
     listItems_skip _ _ (liTag_not_head '>' _ (by decide)),
     listItems_skip _ _ (liTag_not_head '\n' _ (by decide))]

lemma listItems_joinNL : ∀ (lines : List (List Char)) (tail : List Char),
    (∀ l ∈ lines, noEarlyClose l) →
    listItems (joinNL (lines.map liWrap) ++ tail)
      = lines ++ listItems tail := by
  intro lines
  induction lines with
  | nil => intro tail _; simp [joinNL]
  | cons l ls ih =>
      intro tail hno
      have hl : noEarlyClose l := hno l (List.mem_cons_self _ _)
      cases ls with
      | nil =>
          have hj : joinNL ([l].map liWrap) = liWrap l := by simp [joinNL]
          rw [hj, listItems_item_head l tail hl]
          simp
      | cons m ms =>
          have hj : joinNL ((l :: m :: ms).map liWrap)
              = liWrap l ++ '\n' :: joinNL ((m :: ms).map liWrap) := by
            simp [joinNL]
          rw [hj, List.append_assoc]
          rw [show ('\n' :: joinNL ((m :: ms).map liWrap)) ++ tail
            = '\n' :: (joinNL ((m :: ms).map liWrap) ++ tail) from rfl]
          rw [listItems_item_head l _ hl,
             listItems_skip '\n' _ (liTag_not_head '\n' _ (by decide)),
             ih tail (fun l' hl' => hno l' (List.mem_cons_of_mem _ hl'))]
          simp

/-- Claim C8: the renderer maps the empty sequence to the single
placeholder item, and every nonempty sequence of n lines to a markup
list whose items, read back in order, are exactly the n input lines
(assuming no line contains the closing marker, which would make the
item boundaries ambiguous). -/
theorem claim_C8_notes_rendering :
    format_release_notes_as_html []
        = "<ul><li>No changes listed</li></ul>".toList
    ∧ listItems (format_release_notes_as_html [])
        = ["No changes listed".toList]
    ∧ (∀ lines : List (List Char), lines ≠ [] →
        (∀ l ∈ lines, noEarlyClose l) →
        listItems (format_release_notes_as_html lines) = lines) := by
  refine ⟨rfl, by decide, ?_⟩
  intro lines hl hno
  have hfmt : format_release_notes_as_html lines
      = '<' :: 'u' :: 'l' :: '>' :: '\n' ::
          (joinNL (lines.map liWrap) ++ "\n</ul>".toList) := by
    unfold format_release_notes_as_html
    rw [if_neg hl,
       show "<ul>\n".toList = ['<', 'u', 'l', '>', '\n'] from rfl]
    simp [List.append_assoc]
  rw [hfmt, listItems_ul_skip, listItems_joinNL lines _ hno,
     show listItems "\n</ul>".toList = [] from by decide,
     List.append_nil]

/-- Witness for claim C8: a three-line input renders exactly those three
items in order. -/
theorem claim_C8_notes_rendering_witness :
    listItems (format_release_notes_as_html
        ["Fix A".toList, "Add B".toList, "Tweak C".toList])
      = ["Fix A".toList, "Add B".toList, "Tweak C".toList] :=
  claim_C8_notes_rendering.2.2 _ (by decide) (by decide)

end MacSSH
